import Mathlib

/-
Verification of the Mandelbrot/Julia fractal viewer's core against its
specification.  The definitions below are shallow embeddings of the
program's functions: the GLSL fragment shader's escape-time evaluator
(single- and extended-precision), the viewport controller's wheel/pinch
zoom handlers and iteration-budget formula, the URL shareable-state
encode/decode pair, and the inertial pan-velocity decay tick.  Machine
floats are embedded as exact rationals (ℚ); the real-valued smoothing
formula is embedded over ℝ.
-/

/-! ## Escape-time evaluator (fragment shader, single precision) -/

/-- Complex square, from the shader's `complexSquare`:
`vec2(x*x - y*y, 2.0*x*y)`. -/
def complexSquare (z : ℚ × ℚ) : ℚ × ℚ :=
  (z.1 * z.1 - z.2 * z.2, 2 * z.1 * z.2)

/-- One orbit update `z = complexSquare(z) + c` (componentwise vector add),
the loop body of `mandelbrot`. -/
def stepM (c z : ℚ × ℚ) : ℚ × ℚ :=
  ((complexSquare z).1 + c.1, (complexSquare z).2 + c.2)

/-- Squared magnitude `dot(z, z)` used by the escape test. -/
def magSq (z : ℚ × ℚ) : ℚ :=
  z.1 * z.1 + z.2 * z.2

/-- The orbit `z_0 = z0`, `z_{n+1} = z_n^2 + c` traced by the evaluator. -/
def orbit (c z0 : ℚ × ℚ) : ℕ → ℚ × ℚ
  | 0 => z0
  | n + 1 => stepM c (orbit c z0 n)

/-- The loop of the shader's `mandelbrot`: `for (int i = 0; i < 2000; i++)`
with `if (i >= u_maxIterations) break;`, then `z = complexSquare(z) + c`,
then the escape test `zMagnitudeSquared > 256.0`.  On escape it reports the
loop index together with `|z|^2` (the data the smoothing formula consumes);
exhausting the loop means the point is treated as in-set (`none`). -/
def mandelbrotLoop (c : ℚ × ℚ) (m : ℕ) : ℕ → ℕ → ℚ × ℚ → Option (ℕ × ℚ)
  | 0, _, _ => none
  | fuel + 1, i, z =>
    if m ≤ i then none
    else
      let z' := stepM c z
      if 256 < magSq z' then some (i, magSq z')
      else mandelbrotLoop c m fuel (i + 1) z'

/-- The shader's `mandelbrot(c, z0)` with iteration budget `m`
(`u_maxIterations`), reduced to its discrete outcome: `some (i, |z|^2)` at
the first escaping iteration, `none` when the point never escapes within
the budget. -/
def mandelbrotQ (c z0 : ℚ × ℚ) (m : ℕ) : Option (ℕ × ℚ) :=
  mandelbrotLoop c m 2000 0 z0

/-- The continuous-coloring value computed on escape at loop index `i` with
squared magnitude `m`: `logZn = log(m)/2.0`, `nu = log(logZn/log(2.0))/log(2.0)`,
result `float(i) + 1.0 - nu`. -/
noncomputable def smoothValue (i : ℕ) (m : ℝ) : ℝ :=
  (i : ℝ) + 1 - Real.log (Real.log m / 2 / Real.log 2) / Real.log 2

/-- The full return value of the shader's `mandelbrot`: the smooth value on
escape, the in-set sentinel `-1.0` otherwise. -/
noncomputable def mandelbrotR (c z0 : ℚ × ℚ) (m : ℕ) : ℝ :=
  match mandelbrotQ c z0 m with
  | some r => smoothValue r.1 (r.2 : ℝ)
  | none => -1

/-! ## Extended-precision (double-float) arithmetic and evaluator -/

/-- The shader's `ds_add(vec2, vec2)` (Knuth-style compensated sum),
embedded over exact rationals. -/
def ds_add (a b : ℚ × ℚ) : ℚ × ℚ :=
  let s := a.1 + b.1
  let v := s - a.1
  let e := (a.1 - (s - v)) + (b.1 - v) + a.2 + b.2
  (s, e)

/-- The shader's `ds_add(vec2, float)` overload. -/
def ds_addF (a : ℚ × ℚ) (b : ℚ) : ℚ × ℚ :=
  let s := a.1 + b
  let v := s - a.1
  let e := (a.1 - (s - v)) + (b - v) + a.2
  (s, e)

/-- The shader's `ds_mul(vec2, vec2)` (Dekker splitting with constant
`2^27 + 1`), embedded over exact rationals. -/
def ds_mul (a b : ℚ × ℚ) : ℚ × ℚ :=
  let c : ℚ := 134217729
  let ahi := c * a.1 - (c * a.1 - a.1)
  let alo := a.1 - ahi
  let bhi := c * b.1 - (c * b.1 - b.1)
  let blo := b.1 - bhi
  let p := a.1 * b.1
  let e := ((ahi * bhi - p) + ahi * blo + alo * bhi + alo * blo) + a.1 * b.2 + a.2 * b.1
  (p, e)

/-- The shader's `ds_mul(vec2, float)` overload. -/
def ds_mulF (a : ℚ × ℚ) (b : ℚ) : ℚ × ℚ :=
  let c : ℚ := 134217729
  let ahi := c * a.1 - (c * a.1 - a.1)
  let alo := a.1 - ahi
  let bhi := c * b - (c * b - b)
  let blo := b - bhi
  let p := a.1 * b
  let e := ((ahi * bhi - p) + ahi * blo + alo * bhi + alo * blo) + a.2 * b
  (p, e)

/-- The shader's `ds_set`: lift a float with zero low component. -/
def ds_set (a : ℚ) : ℚ × ℚ :=
  (a, 0)

/-- The shader's `complexSquareDP`: `outX = ds_add(xx, ds_mul(yy, -1.0))`,
`outY = ds_mul(xy, 2.0)` with `xx, yy, xy` the double-float products. -/
def complexSquareDP (zx zy : ℚ × ℚ) : (ℚ × ℚ) × (ℚ × ℚ) :=
  let xx := ds_mul zx zx
  let yy := ds_mul zy zy
  let xy := ds_mul zx zy
  (ds_add xx (ds_mulF yy (-1)), ds_mulF xy 2)

/-- The loop of the shader's `mandelbrotDP`: same control flow as
`mandelbrotLoop`, state held as double-float pairs, the magnitude test
`zx.x * zx.x + zy.x * zy.x` taken on the high parts only. -/
def mandelbrotDPLoop (cx cy : ℚ × ℚ) (m : ℕ) : ℕ → ℕ → ℚ × ℚ → ℚ × ℚ → Option (ℕ × ℚ)
  | 0, _, _, _ => none
  | fuel + 1, i, zx, zy =>
    if m ≤ i then none
    else
      let sq := complexSquareDP zx zy
      let zx' := ds_add sq.1 cx
      let zy' := ds_add sq.2 cy
      let mag := zx'.1 * zx'.1 + zy'.1 * zy'.1
      if 256 < mag then some (i, mag)
      else mandelbrotDPLoop cx cy m fuel (i + 1) zx' zy'

/-- The shader's `mandelbrotDP(cx, cy, z0x, z0y)` with budget `m`, reduced
to its discrete outcome like `mandelbrotQ`. -/
def mandelbrotDPQ (cx cy z0x z0y : ℚ × ℚ) (m : ℕ) : Option (ℕ × ℚ) :=
  mandelbrotDPLoop cx cy m 2000 0 z0x z0y

/-- The full return value of the shader's `mandelbrotDP` (smooth value on
escape, `-1.0` otherwise; same smoothing formula as the single-precision
path). -/
noncomputable def mandelbrotDPR (cx cy z0x z0y : ℚ × ℚ) (m : ℕ) : ℝ :=
  match mandelbrotDPQ cx cy z0x z0y m with
  | some r => smoothValue r.1 (r.2 : ℝ)
  | none => -1

/-! ## Loop characterization lemmas -/

lemma mandelbrotLoop_escape (c z0 : ℚ × ℚ) (m : ℕ) (fuel : ℕ) :
    ∀ i j : ℕ, i ≤ j → j < m → j < i + fuel →
      256 < magSq (orbit c z0 (j + 1)) →
      (∀ k, i ≤ k → k < j → magSq (orbit c z0 (k + 1)) ≤ 256) →
      mandelbrotLoop c m fuel i (orbit c z0 i) = some (j, magSq (orbit c z0 (j + 1))) := by
  induction fuel with
  | zero =>
    intro i j hij _ hjf _ _
    omega
  | succ f ih =>
    intro i j hij hjm hjf hesc hmin
    have hstep : stepM c (orbit c z0 i) = orbit c z0 (i + 1) := rfl
    rw [mandelbrotLoop, if_neg (by omega : ¬ m ≤ i)]
    simp only [hstep]
    by_cases h256 : 256 < magSq (orbit c z0 (i + 1))
    · have hji : j = i := by
        by_contra hne
        have hlt : i < j := lt_of_le_of_ne hij (fun h => hne h.symm)
        exact absurd h256 (not_lt.2 (hmin i le_rfl hlt))
      subst hji
      rw [if_pos h256]
    · have hij' : i + 1 ≤ j := by
        rcases lt_or_eq_of_le hij with h | h
        · omega
        · subst h; exact absurd hesc h256
      rw [if_neg h256]
      exact ih (i + 1) j hij' hjm (by omega) hesc (fun k hk1 hk2 => hmin k (by omega) hk2)

lemma mandelbrotLoop_none (c z0 : ℚ × ℚ) (m : ℕ) (fuel : ℕ) :
    ∀ i : ℕ, (∀ j, i ≤ j → j < m → j < i + fuel → magSq (orbit c z0 (j + 1)) ≤ 256) →
      mandelbrotLoop c m fuel i (orbit c z0 i) = none := by
  induction fuel with
  | zero => intro i _; rfl
  | succ f ih =>
    intro i h
    have hstep : stepM c (orbit c z0 i) = orbit c z0 (i + 1) := rfl
    rw [mandelbrotLoop]
    by_cases hmi : m ≤ i
    · rw [if_pos hmi]
    · rw [if_neg hmi]
      simp only [hstep]
      rw [if_neg (not_lt.2 (h i le_rfl (by omega) (by omega)))]
      exact ih (i + 1) (fun j hj1 hj2 hj3 => h j (by omega) hj2 (by omega))

lemma mandelbrotQ_escape (c z0 : ℚ × ℚ) (m j : ℕ) (hjm : j < m) (hj2000 : j < 2000)
    (hesc : 256 < magSq (orbit c z0 (j + 1)))
    (hmin : ∀ k, k < j → magSq (orbit c z0 (k + 1)) ≤ 256) :
    mandelbrotQ c z0 m = some (j, magSq (orbit c z0 (j + 1))) :=
  mandelbrotLoop_escape c z0 m 2000 0 j (Nat.zero_le j) hjm (by omega) hesc
    (fun k _ hk => hmin k hk)

lemma mandelbrotQ_none (c z0 : ℚ × ℚ) (m : ℕ)
    (h : ∀ j, j < m → magSq (orbit c z0 (j + 1)) ≤ 256) :
    mandelbrotQ c z0 m = none :=
  mandelbrotLoop_none c z0 m 2000 0 (fun j _ hj2 _ => h j hj2)

/-! ## Zero-low-component behaviour of the double-float operators

Under the exact-arithmetic embedding every compensated low component
vanishes, so double-float values produced from `ds_set` inputs keep a zero
low part throughout the `mandelbrotDP` loop. -/

lemma ds_add_zero_lo (x y : ℚ) : ds_add (x, 0) (y, 0) = (x + y, 0) := by
  simp only [ds_add, Prod.mk.injEq]
  exact ⟨trivial, by ring⟩

lemma ds_mul_zero_lo (x y : ℚ) : ds_mul (x, 0) (y, 0) = (x * y, 0) := by
  simp only [ds_mul, Prod.mk.injEq]
  exact ⟨trivial, by ring⟩

lemma ds_mulF_zero_lo (x b : ℚ) : ds_mulF (x, 0) b = (x * b, 0) := by
  simp only [ds_mulF, Prod.mk.injEq]
  exact ⟨trivial, by ring⟩

lemma complexSquareDP_zero_lo (x y : ℚ) :
    complexSquareDP (x, 0) (y, 0) = ((x * x - y * y, 0), (2 * x * y, 0)) := by
  simp only [complexSquareDP, ds_mul_zero_lo, ds_mulF_zero_lo, ds_add_zero_lo, Prod.mk.injEq]
  refine ⟨⟨by ring, trivial⟩, by ring, trivial⟩

lemma dp_step_fst (c z : ℚ × ℚ) :
    ds_add (complexSquareDP (ds_set z.1) (ds_set z.2)).1 (ds_set c.1) = ds_set (stepM c z).1 := by
  simp only [ds_set, complexSquareDP_zero_lo, ds_add_zero_lo, stepM, complexSquare]

lemma dp_step_snd (c z : ℚ × ℚ) :
    ds_add (complexSquareDP (ds_set z.1) (ds_set z.2)).2 (ds_set c.2) = ds_set (stepM c z).2 := by
  simp only [ds_set, complexSquareDP_zero_lo, ds_add_zero_lo, stepM, complexSquare]

lemma mandelbrotDPLoop_eq (c : ℚ × ℚ) (m : ℕ) (fuel : ℕ) :
    ∀ (i : ℕ) (z : ℚ × ℚ),
      mandelbrotDPLoop (ds_set c.1) (ds_set c.2) m fuel i (ds_set z.1) (ds_set z.2)
        = mandelbrotLoop c m fuel i z := by
  induction fuel with
  | zero => intro i z; rfl
  | succ f ih =>
    intro i z
    rw [mandelbrotDPLoop, mandelbrotLoop]
    by_cases hmi : m ≤ i
    · rw [if_pos hmi, if_pos hmi]
    · rw [if_neg hmi, if_neg hmi]
      have hx := dp_step_fst c z
      have hy := dp_step_snd c z
      simp only [ds_set] at hx hy ⊢
      rw [hx, hy]
      simp only [magSq]
      exact if_congr Iff.rfl rfl (ih (i + 1) (stepM c z))

/-! ## Claims about the single-precision evaluator: C2, C5, C6, C10 -/

/-- C2: for every complex sample `c`, initial value `z0` and iteration
budget in 1..2000, the single-precision evaluator iterates `z ← z² + c`;
at the first iteration `i` with `|z|² > 256` it returns the smooth value
`i + 1 - nu` with `logZn = ln(|z|²)/2` and `nu = ln(logZn/ln 2)/ln 2`, and
if no iterate within the budget exceeds the bound it returns the in-set
sentinel `-1`. -/
theorem c2_single_precision_evaluator (c z0 : ℚ × ℚ) (m : ℕ) (h1 : 1 ≤ m) (h2 : m ≤ 2000) :
    (∀ j, j < m → 256 < magSq (orbit c z0 (j + 1)) →
        (∀ k, k < j → magSq (orbit c z0 (k + 1)) ≤ 256) →
        mandelbrotQ c z0 m = some (j, magSq (orbit c z0 (j + 1))) ∧
        mandelbrotR c z0 m =
          (j : ℝ) + 1 -
            Real.log ((Real.log ((magSq (orbit c z0 (j + 1)) : ℚ) : ℝ) / 2) / Real.log 2) /
              Real.log 2) ∧
    ((∀ j, j < m → magSq (orbit c z0 (j + 1)) ≤ 256) →
        mandelbrotQ c z0 m = none ∧ mandelbrotR c z0 m = -1) := by
  constructor
  · intro j hjm hesc hmin
    have hq := mandelbrotQ_escape c z0 m j hjm (by omega) hesc hmin
    refine ⟨hq, ?_⟩
    simp only [mandelbrotR, hq, smoothValue]
  · intro hall
    have hq := mandelbrotQ_none c z0 m hall
    refine ⟨hq, ?_⟩
    simp only [mandelbrotR, hq]

/-- Witness for C2 at the concrete sample `c = (2, 0)`, `z0 = (0, 0)`,
budget 10: the first escaping iteration is index 2. -/
theorem c2_single_precision_evaluator_witness :
    (2 : ℕ) < 10 ∧ mandelbrotQ (2, 0) (0, 0) 10 = some (2, magSq (orbit (2, 0) (0, 0) 3)) := by
  refine ⟨by norm_num, ((c2_single_precision_evaluator (2, 0) (0, 0) 10 (by norm_num)
    (by norm_num)).1 2 (by norm_num) ?_ ?_).1⟩
  · norm_num [orbit, stepM, complexSquare, magSq]
  · intro k hk
    interval_cases k <;> norm_num [orbit, stepM, complexSquare, magSq]

/-- C5: the point `c = 0` with `z0 = 0` (Mandelbrot binding) never escapes
for any budget in 1..2000; the evaluator returns the in-set sentinel. -/
theorem c5_origin_in_set (m : ℕ) (h1 : 1 ≤ m) (h2 : m ≤ 2000) :
    mandelbrotQ (0, 0) (0, 0) m = none ∧ mandelbrotR (0, 0) (0, 0) m = -1 := by
  have horb : ∀ n, orbit (0, 0) (0, 0) n = (0, 0) := by
    intro n
    induction n with
    | zero => rfl
    | succ k ih => rw [orbit, ih]; norm_num [stepM, complexSquare]
  have hq := mandelbrotQ_none (0, 0) (0, 0) m (fun j _ => by rw [horb]; norm_num [magSq])
  exact ⟨hq, by simp only [mandelbrotR, hq]⟩

/-- Witness for C5 at budget 5. -/
theorem c5_origin_in_set_witness :
    1 ≤ 5 ∧ 5 ≤ 2000 ∧ mandelbrotQ (0, 0) (0, 0) 5 = none :=
  ⟨by norm_num, by norm_num, (c5_origin_in_set 5 (by norm_num) (by norm_num)).1⟩

/-- Counterexample to C6 as stated: at `c = (2, 0)`, `z0 = (0, 0)` the
escape test does not succeed at iteration index 1 (`|z|² = 36 ≤ 256`
there); the evaluator escapes at index 2 instead, returning the data of
iterate 3 (`|z|² = 1444`). -/
theorem c6_counterexample :
    magSq (orbit (2, 0) (0, 0) 2) ≤ 256 ∧ mandelbrotQ (2, 0) (0, 0) 10 = some (2, 1444) := by
  have h3 : magSq (orbit (2, 0) (0, 0) 3) = 1444 := by
    norm_num [orbit, stepM, complexSquare, magSq]
  refine ⟨by norm_num [orbit, stepM, complexSquare, magSq], ?_⟩
  have h := mandelbrotQ_escape (2, 0) (0, 0) 10 2 (by norm_num) (by norm_num)
    (by rw [h3]; norm_num)
    (fun k hk => by interval_cases k <;> norm_num [orbit, stepM, complexSquare, magSq])
  rwa [h3] at h

/-- C6 (amended): `c = (2, 0)` with `z0 = (0, 0)` escapes at iteration
index 2 (with `|z|² = 1444`) for every `maxIterations ≥ 3`. -/
theorem c6_escape_at_index_two (m : ℕ) (h : 3 ≤ m) :
    mandelbrotQ (2, 0) (0, 0) m = some (2, 1444) := by
  have h3 : magSq (orbit (2, 0) (0, 0) 3) = 1444 := by
    norm_num [orbit, stepM, complexSquare, magSq]
  have hesc := mandelbrotQ_escape (2, 0) (0, 0) m 2 (by omega) (by norm_num)
    (by rw [h3]; norm_num)
    (fun k hk => by interval_cases k <;> norm_num [orbit, stepM, complexSquare, magSq])
  rwa [h3] at hesc

/-- Witness for the amended C6 at budget 10. -/
theorem c6_escape_at_index_two_witness :
    3 ≤ 10 ∧ mandelbrotQ (2, 0) (0, 0) 10 = some (2, 1444) :=
  ⟨by norm_num, c6_escape_at_index_two 10 (by norm_num)⟩

/-- C4: extended-precision equivalence.  For every sample
`c = center + uv / zoom` with `0 < zoom ≤ 10^5` (below the precision
switch), the extended-precision evaluator on `(hi, lo)` inputs lifted by
`ds_set` agrees exactly with the single-precision evaluator, both in the
discrete escape data and in the returned smooth value, under the
exact-arithmetic embedding. -/
theorem c4_extended_precision_equivalence (center uv : ℚ × ℚ) (zoom : ℚ) (z0 : ℚ × ℚ)
    (m : ℕ) (hz : 0 < zoom) (hz5 : zoom ≤ 100000) :
    mandelbrotDPQ (ds_set (center.1 + uv.1 / zoom)) (ds_set (center.2 + uv.2 / zoom))
        (ds_set z0.1) (ds_set z0.2) m
      = mandelbrotQ (center.1 + uv.1 / zoom, center.2 + uv.2 / zoom) z0 m ∧
    mandelbrotDPR (ds_set (center.1 + uv.1 / zoom)) (ds_set (center.2 + uv.2 / zoom))
        (ds_set z0.1) (ds_set z0.2) m
      = mandelbrotR (center.1 + uv.1 / zoom, center.2 + uv.2 / zoom) z0 m := by
  have hQ : mandelbrotDPQ (ds_set (center.1 + uv.1 / zoom)) (ds_set (center.2 + uv.2 / zoom))
      (ds_set z0.1) (ds_set z0.2) m
      = mandelbrotQ (center.1 + uv.1 / zoom, center.2 + uv.2 / zoom) z0 m :=
    mandelbrotDPLoop_eq (center.1 + uv.1 / zoom, center.2 + uv.2 / zoom) m 2000 0 z0
  refine ⟨hQ, ?_⟩
  rw [mandelbrotDPR, mandelbrotR, hQ]

/-- Witness for C4 at center `(0, 0)`, offset `(2, 0)`, zoom 1, `z0 = 0`,
budget 10. -/
theorem c4_extended_precision_equivalence_witness :
    mandelbrotDPQ (ds_set 2) (ds_set 0) (ds_set 0) (ds_set 0) 10
      = mandelbrotQ (2, 0) (0, 0) 10 := by
  have h := (c4_extended_precision_equivalence (0, 0) (2, 0) 1 (0, 0) 10 (by norm_num)
    (by norm_num)).1
  norm_num at h
  exact h

/-- C10: sentinel collision.  The sample `c = (16.1, 0)` (with `|c|²`
slightly above 256) escapes at iteration index 0, yet its smooth value
`0 + 1 - nu` is negative, so the consumer's in-set test `iter < 0.0`
classifies this escaped point as in-set. -/
theorem c10_sentinel_collision :
    mandelbrotQ (161 / 10, 0) (0, 0) 100 = some (0, 25921 / 100) ∧
    mandelbrotR (161 / 10, 0) (0, 0) 100 < 0 := by
  have h1 : magSq (orbit (161 / 10, 0) (0, 0) 1) = 25921 / 100 := by
    norm_num [orbit, stepM, complexSquare, magSq]
  have hq : mandelbrotQ (161 / 10, 0) (0, 0) 100 = some (0, 25921 / 100) := by
    have h := mandelbrotQ_escape (161 / 10, 0) (0, 0) 100 0 (by norm_num) (by norm_num)
      (by rw [h1]; norm_num) (fun k hk => absurd hk (Nat.not_lt_zero k))
    rwa [h1] at h
  refine ⟨hq, ?_⟩
  simp only [mandelbrotR, hq, smoothValue]
  have hL : (0 : ℝ) < Real.log 2 := Real.log_pos one_lt_two
  have hcast : (((25921 / 100 : ℚ) : ℝ)) = 25921 / 100 := by norm_num
  rw [hcast]
  have h16 : Real.log 16 = 4 * Real.log 2 := by
    rw [show (16 : ℝ) = 2 ^ 4 by norm_num, Real.log_pow]
    push_cast
    ring
  have hm16 : Real.log 16 < Real.log ((25921 : ℝ) / 100) :=
    Real.log_lt_log (by norm_num) (by norm_num)
  have hX : 2 < Real.log ((25921 : ℝ) / 100) / 2 / Real.log 2 := by
    rw [lt_div_iff₀ hL, lt_div_iff₀ (by norm_num : (0 : ℝ) < 2)]
    linarith [hm16, h16]
  have hnu : 1 < Real.log (Real.log ((25921 : ℝ) / 100) / 2 / Real.log 2) / Real.log 2 := by
    rw [lt_div_iff₀ hL, one_mul]
    calc Real.log 2 = Real.log 2 := rfl
      _ < Real.log (Real.log ((25921 : ℝ) / 100) / 2 / Real.log 2) :=
          Real.log_lt_log (by norm_num) hX
  push_cast
  linarith

/-! ## Viewport controller: cursor-anchored wheel zoom and pinch zoom (C1) -/

/-- Camera target state owned by the viewport controller
(`viewRef.targetCenter`, `viewRef.targetZoom`). -/
structure View where
  cx : ℚ
  cy : ℚ
  zoom : ℚ

/-- The world point under normalized pointer position `(mx, my)` with
aspect correction, as computed in `handleWheel`:
`worldX = targetCenter.x + (mouseX * aspect) / targetZoom`,
`worldY = targetCenter.y + mouseY / targetZoom`. -/
def worldAt (v : View) (mx my aspect : ℚ) : ℚ × ℚ :=
  (v.cx + mx * aspect / v.zoom, v.cy + my / v.zoom)

/-- The wheel-zoom handler `handleWheel`: zoom factor 0.9 when
`e.deltaY > 0`, else 1.1; `newZoom = targetZoom * zoomFactor`; the new
center is chosen so the world point under the mouse stays fixed. -/
def wheelUpdate (v : View) (mx my aspect deltaY : ℚ) : View :=
  let zoomFactor : ℚ := if 0 < deltaY then 9 / 10 else 11 / 10
  let newZoom := v.zoom * zoomFactor
  let worldX := v.cx + mx * aspect / v.zoom
  let worldY := v.cy + my / v.zoom
  { cx := worldX - mx * aspect / newZoom, cy := worldY - my / newZoom, zoom := newZoom }

/-- The pinch-zoom branch of `handleTouchMove`: `newZoom = targetZoom * scale`
with `scale` the pinch-distance ratio; it emits only
`onStateChange({ zoom: newZoom })`, leaving the target center unchanged. -/
def pinchUpdate (v : View) (scale : ℚ) : View :=
  { v with zoom := v.zoom * scale }

/-- Counterexample to C1 as stated: a pinch gesture (distance ratio 2,
both zooms positive) at pointer position `p = (1/2, 0)` does not keep the
world point under `p` fixed, since the pinch handler never recomputes the
center. -/
theorem c1_counterexample :
    worldAt (pinchUpdate ⟨0, 0, 1⟩ 2) (1 / 2) 0 1 ≠ worldAt ⟨0, 0, 1⟩ (1 / 2) 0 1 := by
  simp only [worldAt, pinchUpdate, ne_eq, Prod.mk.injEq]
  norm_num

/-- C1 (amended): every wheel-zoom gesture (factor 1.1 zooming in, 0.9
zooming out) keeps the world coordinate under the pointer exactly fixed;
the pinch gesture rescales about the screen center only, so it keeps the
world point fixed at pointer position `p = (0, 0)`. -/
theorem c1_cursor_anchor (v : View) (mx my aspect deltaY scale : ℚ)
    (hz : 0 < v.zoom) (hs : 0 < scale) :
    worldAt (wheelUpdate v mx my aspect deltaY) mx my aspect = worldAt v mx my aspect ∧
    worldAt (pinchUpdate v scale) 0 0 aspect = worldAt v 0 0 aspect := by
  constructor
  · simp only [worldAt, wheelUpdate, Prod.mk.injEq]
    constructor <;> ring
  · simp only [worldAt, pinchUpdate, Prod.mk.injEq]
    norm_num

/-- Witness for the amended C1 at a concrete view and pointer position. -/
theorem c1_cursor_anchor_witness :
    worldAt (wheelUpdate ⟨0, 0, 1⟩ (1 / 2) (1 / 3) (16 / 9) 1) (1 / 2) (1 / 3) (16 / 9)
      = worldAt ⟨0, 0, 1⟩ (1 / 2) (1 / 3) (16 / 9) :=
  (c1_cursor_anchor ⟨0, 0, 1⟩ (1 / 2) (1 / 3) (16 / 9) 1 2 (by norm_num) (by norm_num)).1

/-! ## Iteration-budget policy (C3) -/

/-- The iteration budget computed in `handleWheel`:
`Math.min(2000, Math.max(100, Math.floor(100 + Math.log10(newZoom) * 50)))`. -/
noncomputable def wheelIterations (zoom : ℝ) : ℤ :=
  min 2000 (max 100 ⌊(100 : ℝ) + Real.logb 10 zoom * 50⌋)

/-- The identical iteration budget computed in the auto-zoom effect. -/
noncomputable def autoZoomIterations (zoom : ℝ) : ℤ :=
  min 2000 (max 100 ⌊(100 : ℝ) + Real.logb 10 zoom * 50⌋)

/-- C3: the iteration budget is non-decreasing in zoom (on positive
zooms), always lies in `[100, 2000]`, and the wheel handler and the
auto-zoom driver compute it by the same formula. -/
theorem c3_iteration_budget (z1 z2 : ℝ) (h1 : 0 < z1) (h12 : z1 ≤ z2) :
    wheelIterations z1 ≤ wheelIterations z2 ∧
    100 ≤ wheelIterations z1 ∧ wheelIterations z1 ≤ 2000 ∧
    wheelIterations z1 = autoZoomIterations z1 := by
  refine ⟨?_, ?_, ?_, rfl⟩
  · have hlog : Real.logb 10 z1 ≤ Real.logb 10 z2 :=
      Real.logb_le_logb_of_le (by norm_num) h1 h12
    have hfloor : ⌊(100 : ℝ) + Real.logb 10 z1 * 50⌋ ≤ ⌊(100 : ℝ) + Real.logb 10 z2 * 50⌋ :=
      Int.floor_le_floor (by linarith)
    exact min_le_min le_rfl (max_le_max le_rfl hfloor)
  · exact le_min (by norm_num) (le_max_left _ _)
  · exact min_le_left _ _

/-- Witness for C3 at zooms 1 and 10. -/
theorem c3_iteration_budget_witness :
    wheelIterations 1 ≤ wheelIterations 10 ∧ 100 ≤ wheelIterations 1 ∧
    wheelIterations 1 ≤ 2000 ∧ wheelIterations 1 = autoZoomIterations 1 :=
  c3_iteration_budget 1 10 (by norm_num) (by norm_num)

/-! ## Inertial pan-velocity decay (C9) -/

/-- One animation-loop tick acting on the pan velocity while not dragging
(from `animate`): if `Math.abs(velocity.x) > 0.01 || Math.abs(velocity.y) > 0.01`
both components are multiplied by 0.85, otherwise both are set to 0. -/
def decayTick (v : ℚ × ℚ) : ℚ × ℚ :=
  if 1 / 100 < |v.1| ∨ 1 / 100 < |v.2| then (v.1 * (85 / 100), v.2 * (85 / 100))
  else (0, 0)

/-- Iterated decay ticks (no further input, `isDragging = false`). -/
def decayIter : ℕ → ℚ × ℚ → ℚ × ℚ
  | 0, v => v
  | n + 1, v => decayIter n (decayTick v)

lemma decayIter_zero_state (n : ℕ) : decayIter n (0, 0) = (0, 0) := by
  induction n with
  | zero => rfl
  | succ k ih =>
    rw [decayIter]
    have h : decayTick (0, 0) = (0, 0) := by
      rw [decayTick, if_neg]
      push_neg
      norm_num
    rw [h, ih]

lemma decayIter_reaches (n : ℕ) :
    ∀ (v : ℚ × ℚ) (B : ℚ), |v.1| ≤ B → |v.2| ≤ B → B * (85 / 100) ^ n ≤ 1 / 100 →
      decayIter (n + 1) v = (0, 0) := by
  induction n with
  | zero =>
    intro v B h1 h2 hB
    rw [pow_zero, mul_one] at hB
    rw [decayIter]
    have h : decayTick v = (0, 0) := by
      rw [decayTick, if_neg]
      push_neg
      exact ⟨le_trans h1 hB, le_trans h2 hB⟩
    rw [h, decayIter]
  | succ n ih =>
    intro v B h1 h2 hB
    rw [decayIter]
    by_cases h : 1 / 100 < |v.1| ∨ 1 / 100 < |v.2|
    · rw [decayTick, if_pos h]
      refine ih (v.1 * (85 / 100), v.2 * (85 / 100)) (B * (85 / 100)) ?_ ?_ ?_
      · rw [abs_mul, abs_of_pos (by norm_num : (0 : ℚ) < 85 / 100)]
        exact mul_le_mul_of_nonneg_right h1 (by norm_num)
      · rw [abs_mul, abs_of_pos (by norm_num : (0 : ℚ) < 85 / 100)]
        exact mul_le_mul_of_nonneg_right h2 (by norm_num)
      · calc B * (85 / 100) * (85 / 100) ^ n = B * (85 / 100) ^ (n + 1) := by ring
          _ ≤ 1 / 100 := hB
    · rw [decayTick, if_neg h]
      exact decayIter_zero_state (n + 1)

lemma decayIter_no_threshold (n : ℕ) :
    ∀ v : ℚ × ℚ,
      (∀ k, k < n → 1 / 100 < |v.1| * (85 / 100) ^ k ∨ 1 / 100 < |v.2| * (85 / 100) ^ k) →
      decayIter n v = (v.1 * (85 / 100) ^ n, v.2 * (85 / 100) ^ n) := by
  induction n with
  | zero =>
    intro v _
    rw [decayIter, pow_zero, mul_one, mul_one]
  | succ n ih =>
    intro v h
    have h0 := h 0 (Nat.succ_pos n)
    rw [pow_zero, mul_one, mul_one] at h0
    have habs : ∀ q : ℚ, |q * (85 / 100)| = |q| * (85 / 100) := fun q => by
      rw [abs_mul, abs_of_pos (by norm_num : (0 : ℚ) < 85 / 100)]
    rw [decayIter, decayTick, if_pos h0,
      ih (v.1 * (85 / 100), v.2 * (85 / 100)) (fun k hk => by
        have hgoal : ∀ q : ℚ, |q| * (85 / 100) * (85 / 100) ^ k = |q| * (85 / 100) ^ (k + 1) :=
          fun q => by ring
        rcases h (k + 1) (by omega) with hl | hr
        · exact Or.inl (by rw [habs, hgoal]; exact hl)
        · exact Or.inr (by rw [habs, hgoal]; exact hr))]
    simp only [Prod.mk.injEq]
    constructor <;> ring

/-- Counterexample to C9 as stated: from velocity `(100, 100)` (components
of absolute value at most 100) the decay loop has not reached `(0, 0)`
after 50 ticks — every one of the first 50 ticks still exceeds the 0.01
threshold, so the velocity is `100 · 0.85^50 ≈ 0.0295` in each component. -/
theorem c9_counterexample : decayIter 50 ((100 : ℚ), (100 : ℚ)) ≠ (0, 0) := by
  have heq := decayIter_no_threshold 50 ((100 : ℚ), (100 : ℚ)) (fun k hk => by
    left
    have hpow : (85 / 100 : ℚ) ^ 49 ≤ (85 / 100 : ℚ) ^ k :=
      pow_le_pow_of_le_one (by norm_num) (by norm_num) (by omega)
    have h49 : (1 / 100 : ℚ) < 100 * (85 / 100) ^ 49 := by norm_num
    have : (100 : ℚ) * (85 / 100) ^ 49 ≤ 100 * (85 / 100) ^ k := by
      exact mul_le_mul_of_nonneg_left hpow (by norm_num)
    rw [show |((100 : ℚ), (100 : ℚ)).1| = 100 by norm_num]
    linarith)
  rw [heq]
  simp only [ne_eq, Prod.mk.injEq, not_and]
  intro hfst
  exfalso
  have : (0 : ℚ) < ((100 : ℚ), (100 : ℚ)).1 * (85 / 100) ^ 50 := by positivity
  rw [hfst] at this
  exact lt_irrefl 0 this

/-- C9 (amended): from any initial velocity the decay loop reaches
velocity exactly `(0, 0)` after finitely many ticks; when both components
have absolute value at most 100, 58 ticks suffice (50 do not, see the
counterexample). -/
theorem c9_inertial_decay (x y : ℚ) :
    (∃ n, decayIter n (x, y) = (0, 0)) ∧
    (|x| ≤ 100 → |y| ≤ 100 → decayIter 58 (x, y) = (0, 0)) := by
  constructor
  · have hB0 : (0 : ℚ) ≤ max |x| |y| := le_trans (abs_nonneg x) (le_max_left _ _)
    obtain ⟨n, hn⟩ := exists_pow_lt_of_lt_one
      (show (0 : ℚ) < 1 / 100 / (max |x| |y| + 1) by positivity)
      (show (85 / 100 : ℚ) < 1 by norm_num)
    refine ⟨n + 1, decayIter_reaches n (x, y) (max |x| |y|)
      (le_max_left _ _) (le_max_right _ _) ?_⟩
    calc max |x| |y| * (85 / 100) ^ n
        ≤ (max |x| |y| + 1) * (85 / 100) ^ n :=
          mul_le_mul_of_nonneg_right (by linarith) (by positivity)
      _ ≤ (max |x| |y| + 1) * (1 / 100 / (max |x| |y| + 1)) :=
          mul_le_mul_of_nonneg_left (le_of_lt hn) (by positivity)
      _ = 1 / 100 := by
          field_simp
          ring
  · intro h1 h2
    exact decayIter_reaches 57 (x, y) 100 h1 h2 (by norm_num)

/-- Witness for the amended C9 at initial velocity `(100, 100)`. -/
theorem c9_inertial_decay_witness :
    |(100 : ℚ)| ≤ 100 ∧ decayIter 58 ((100 : ℚ), (100 : ℚ)) = (0, 0) :=
  ⟨by norm_num, (c9_inertial_decay 100 100).2 (by norm_num) (by norm_num)⟩

/-! ## Shareable URL state: encode/decode round-trip (C7) -/

/-- The application's `FractalState` (src/types.ts), numeric fields as
exact rationals. -/
structure FractalState where
  centerX : ℚ
  centerY : ℚ
  zoom : ℚ
  maxIterations : ℤ
  colorPalette : ℤ
  isJulia : Bool
  juliaCX : ℚ
  juliaCY : ℚ
  autoZoom : Bool
  animationSpeed : ℤ

/-- The flat key-value URL-parameter form written/read by `useUrlState`;
`none` models an absent parameter.  Numeric parameter values are the exact
decimal values of the strings produced by `toFixed`/`toString` and read
back by `parseFloat`/`parseInt`. -/
structure UrlParams where
  cx : Option ℚ
  cy : Option ℚ
  z : Option ℚ
  i : Option ℤ
  p : Option ℤ
  j : Option String
  jx : Option ℚ
  jy : Option ℚ

/-- JavaScript `Number.prototype.toFixed(f)`: round to `f` decimal places,
ties toward the larger value (`⌊x·10^f + 1/2⌋ / 10^f`). -/
def toFixed (f : ℕ) (x : ℚ) : ℚ :=
  (⌊x * 10 ^ f + 1 / 2⌋ : ℚ) / 10 ^ f

/-- The encode effect of `useUrlState`: center to 10 decimals, zoom to 6
decimals, iterations and palette via `toString`, and the `j`/`jx`/`jy`
parameters only when `isJulia` is set. -/
def encodeState (s : FractalState) : UrlParams :=
  { cx := some (toFixed 10 s.centerX)
    cy := some (toFixed 10 s.centerY)
    z := some (toFixed 6 s.zoom)
    i := some s.maxIterations
    p := some s.colorPalette
    j := if s.isJulia then some ("1") else none
    jx := if s.isJulia then some (toFixed 10 s.juliaCX) else none
    jy := if s.isJulia then some (toFixed 10 s.juliaCY) else none }

/-- The decode effect of `useUrlState`, merged over a base state: each
field is updated only when its parameter is present (`center` and `juliaC`
require both of their components; `isJulia` becomes `julia === '1'`). -/
def decodeApply (ps : UrlParams) (base : FractalState) : FractalState :=
  { centerX := match ps.cx, ps.cy with
      | some x, some _ => x
      | _, _ => base.centerX
    centerY := match ps.cx, ps.cy with
      | some _, some y => y
      | _, _ => base.centerY
    zoom := match ps.z with
      | some z => z
      | none => base.zoom
    maxIterations := match ps.i with
      | some n => n
      | none => base.maxIterations
    colorPalette := match ps.p with
      | some n => n
      | none => base.colorPalette
    isJulia := match ps.j with
      | some s => s == "1"
      | none => base.isJulia
    juliaCX := match ps.jx, ps.jy with
      | some x, some _ => x
      | _, _ => base.juliaCX
    juliaCY := match ps.jx, ps.jy with
      | some _, some y => y
      | _, _ => base.juliaCY
    autoZoom := base.autoZoom
    animationSpeed := base.animationSpeed }

/-- The application's `DEFAULT_STATE` (src/App.tsx). -/
def defaultState : FractalState :=
  { centerX := -1 / 2, centerY := 0, zoom := 1, maxIterations := 150, colorPalette := 0,
    isJulia := false, juliaCX := -7 / 10, juliaCY := 27015 / 100000, autoZoom := false,
    animationSpeed := 3 }

/-- A Mandelbrot-mode state carrying a non-default Julia constant. -/
def c7StateNonJulia : FractalState :=
  { centerX := 0, centerY := 0, zoom := 1, maxIterations := 150, colorPalette := 0,
    isJulia := false, juliaCX := 1 / 2, juliaCY := 1 / 2, autoZoom := false,
    animationSpeed := 3 }

/-- The same state with the Julia flag set. -/
def c7StateJulia : FractalState :=
  { c7StateNonJulia with isJulia := true }

lemma toFixed_err (f : ℕ) (x : ℚ) : |toFixed f x - x| ≤ 1 / (2 * 10 ^ f) := by
  have hpow : (0 : ℚ) < 10 ^ f := by positivity
  have hfl : (⌊x * 10 ^ f + 1 / 2⌋ : ℚ) ≤ x * 10 ^ f + 1 / 2 := Int.floor_le _
  have hfl2 : x * 10 ^ f + 1 / 2 < (⌊x * 10 ^ f + 1 / 2⌋ : ℚ) + 1 := Int.lt_floor_add_one _
  have hxy : toFixed f x - x = ((⌊x * 10 ^ f + 1 / 2⌋ : ℚ) - x * 10 ^ f) / 10 ^ f := by
    rw [toFixed]
    field_simp
    ring
  rw [hxy, abs_div, abs_of_pos hpow, div_le_div_iff₀ hpow (by positivity : (0 : ℚ) < 2 * 10 ^ f)]
  have hA : |(⌊x * 10 ^ f + 1 / 2⌋ : ℚ) - x * 10 ^ f| ≤ 1 / 2 := by
    rw [abs_le]
    constructor <;> linarith
  nlinarith [abs_nonneg ((⌊x * 10 ^ f + 1 / 2⌋ : ℚ) - x * 10 ^ f)]

/-- Counterexample to C7 as stated: encoding a state with `isJulia = false`
and Julia constant `(1/2, 1/2)` and decoding over the app's default state
does not reproduce the Julia constant even up to the 10-decimal
truncation — the `jx`/`jy` parameters are simply omitted, so the decoded
value falls back to the base state's `-0.7`. -/
theorem c7_counterexample :
    (decodeApply (encodeState c7StateNonJulia) defaultState).juliaCX ≠ c7StateNonJulia.juliaCX ∧
    1 / 10 ^ 10 <
      |(decodeApply (encodeState c7StateNonJulia) defaultState).juliaCX
        - c7StateNonJulia.juliaCX| := by
  have h : (decodeApply (encodeState c7StateNonJulia) defaultState).juliaCX = -7 / 10 := by
    simp [decodeApply, encodeState, c7StateNonJulia, defaultState]
  rw [h]
  refine ⟨by norm_num [c7StateNonJulia], ?_⟩
  have hdiff : (-7 / 10 : ℚ) - c7StateNonJulia.juliaCX = -(6 / 5) := by
    norm_num [c7StateNonJulia]
  rw [hdiff, abs_neg, abs_of_pos (by norm_num : (0 : ℚ) < 6 / 5)]
  norm_num

/-- C7 (amended): decoding the encoded form of any state over any base
state reproduces center (to 10 decimals), zoom (to 6 decimals),
iterations and palette exactly; when `isJulia = true` it also reproduces
the Julia flag and the Julia constant to 10 decimals; when
`isJulia = false` the Julia flag and constant are omitted from the
encoding, so the decoded state keeps the base state's values for them.
Truncation to `f` decimals moves a value by at most `1/(2·10^f)`. -/
theorem c7_roundtrip (s base : FractalState) :
    (decodeApply (encodeState s) base).centerX = toFixed 10 s.centerX ∧
    (decodeApply (encodeState s) base).centerY = toFixed 10 s.centerY ∧
    (decodeApply (encodeState s) base).zoom = toFixed 6 s.zoom ∧
    (decodeApply (encodeState s) base).maxIterations = s.maxIterations ∧
    (decodeApply (encodeState s) base).colorPalette = s.colorPalette ∧
    (s.isJulia = true →
      (decodeApply (encodeState s) base).isJulia = true ∧
      (decodeApply (encodeState s) base).juliaCX = toFixed 10 s.juliaCX ∧
      (decodeApply (encodeState s) base).juliaCY = toFixed 10 s.juliaCY) ∧
    (s.isJulia = false →
      (decodeApply (encodeState s) base).isJulia = base.isJulia ∧
      (decodeApply (encodeState s) base).juliaCX = base.juliaCX ∧
      (decodeApply (encodeState s) base).juliaCY = base.juliaCY) ∧
    (∀ (f : ℕ) (x : ℚ), |toFixed f x - x| ≤ 1 / (2 * 10 ^ f)) := by
  refine ⟨?_, ?_, ?_, ?_, ?_, ?_, ?_, toFixed_err⟩
  · simp [decodeApply, encodeState]
  · simp [decodeApply, encodeState]
  · simp [decodeApply, encodeState]
  · simp [decodeApply, encodeState]
  · simp [decodeApply, encodeState]
  · intro h
    simp [decodeApply, encodeState, h]
  · intro h
    simp [decodeApply, encodeState, h]

/-- Witness for the amended C7 at the concrete Julia-mode state. -/
theorem c7_roundtrip_witness :
    c7StateJulia.isJulia = true ∧
    (decodeApply (encodeState c7StateJulia) defaultState).juliaCX
      = toFixed 10 c7StateJulia.juliaCX :=
  ⟨rfl, ((c7_roundtrip c7StateJulia defaultState).2.2.2.2.2.1 rfl).2.1⟩

/-! ## Shareable URL state: ingestion of non-finite values (C8) -/

/-- A JavaScript number as produced by `parseFloat`/`parseInt`: either a
finite value or NaN (e.g. `parseFloat` applied to an unparsable string). -/
inductive JsNum where
  | nan : JsNum
  | fin : ℚ → JsNum

/-- URL parameters with values as the raw `parseFloat`/`parseInt` results,
so non-finite parse results are representable. -/
structure UrlParamsJs where
  cx : Option JsNum
  cy : Option JsNum
  z : Option JsNum
  i : Option JsNum
  p : Option JsNum
  j : Option String
  jx : Option JsNum
  jy : Option JsNum

/-- `FractalState` with numeric fields as JavaScript numbers. -/
structure FractalStateJs where
  centerX : JsNum
  centerY : JsNum
  zoom : JsNum
  maxIterations : JsNum
  colorPalette : JsNum
  isJulia : Bool
  juliaCX : JsNum
  juliaCY : JsNum

/-- The decode effect of `useUrlState` over JavaScript numbers: every
present parameter's parse result is stored into the state unchanged —
the code performs no finiteness check of any kind. -/
def decodeApplyJs (ps : UrlParamsJs) (base : FractalStateJs) : FractalStateJs :=
  { centerX := match ps.cx, ps.cy with
      | some x, some _ => x
      | _, _ => base.centerX
    centerY := match ps.cx, ps.cy with
      | some _, some y => y
      | _, _ => base.centerY
    zoom := match ps.z with
      | some z => z
      | none => base.zoom
    maxIterations := match ps.i with
      | some n => n
      | none => base.maxIterations
    colorPalette := match ps.p with
      | some n => n
      | none => base.colorPalette
    isJulia := match ps.j with
      | some s => s == "1"
      | none => base.isJulia
    juliaCX := match ps.jx, ps.jy with
      | some x, some _ => x
      | _, _ => base.juliaCX
    juliaCY := match ps.jx, ps.jy with
      | some _, some y => y
      | _, _ => base.juliaCY }

/-- C8 fails on the code: a URL like `?z=abc` parses to `NaN`
(`parseFloat('abc')`), and the decode path stores that `NaN` into the
state's zoom unchanged, for every base state — nothing clamps or rejects
non-finite values before they reach the sampling loop. -/
theorem c8_nan_propagation (base : FractalStateJs) :
    (decodeApplyJs
      { cx := none, cy := none, z := some JsNum.nan, i := none, p := none,
        j := none, jx := none, jy := none } base).zoom = JsNum.nan :=
  rfl
